import Mathlib

/-!
Verification of the `tsrpc-cli` dev command (`cmdDev` / `delayWatch`).

The development shallowly embeds the debounced watch engine (`delayWatch`),
the dev-server supervisor (`startDevServer` plus the `DEV_SERVER` watch), and
the orchestrator callbacks (`AutoProto`, `AutoSync`, symlink setup) of
`src/commands/dev.ts`.  Time is modelled as `Nat` (milliseconds of event-loop
time); each incoming filesystem event is a timestamped `ChangeEvent`; the
single-threaded event loop is modelled by processing inputs in time order,
firing an armed debounce timer before any event that arrives at or after its
deadline.  External collaborators (chokidar, fs-extra, proto generation,
symlink creation) are represented by their observable outcomes or emitted
actions, matching the spec's "signatures only" treatment.
-/

/-- A chokidar change event as passed to `delayWatch` handlers: the
`eventName` string (one of add/addDir/change/unlink/unlinkDir) and the
file path.  The optional `Stats` payload is passed through opaquely by the
source and is omitted from the model. -/
structure ChangeEvent where
  eventName : String
  filepath : String
deriving DecidableEq

/-- Observable callback invocations of one `delayWatch` engine:
`willTrigger t e` is the evaluation of `options.onWillTrigger?.(...)` at time
`t` for event `e` (the leading edge), `trigger t e` the evaluation of
`options.onTrigger?.(...)` when the timer armed for event `e` fires at time
`t`, and `uncaught t` the rejection of the internal handler when the user's
`onWillTrigger` threw at time `t`. -/
inductive WatchOut
  | willTrigger (t : Nat) (e : ChangeEvent)
  | trigger (t : Nat) (e : ChangeEvent)
  | uncaught (t : Nat)
deriving DecidableEq

/-- State of one `delayWatch` engine.

`timer` models the `timer` variable: `some (dl, e)` is a pending
`setTimeout` whose callback will run at time `dl` and call `onTrigger`
with the captured event `e`.

`procUntil` and `stuck` together model the `isProcessing` flag.  The flag
is observably `true` only while the handler is suspended at
`await options.onWillTrigger?.(...)`: `procUntil = some u` records that the
suspension (entered at the leading event's arrival) lasts through time `u`,
so events with arrival time `≤ u` hit the `if (isProcessing) return;` guard.
`stuck = true` records that the awaited user callback threw, so the lines
re-arming the timer and resetting `isProcessing = false` were skipped and
the flag stays `true` forever. -/
structure WatchState where
  timer : Option (Nat × ChangeEvent)
  procUntil : Option Nat
  stuck : Bool
deriving DecidableEq

/-- The pending `setTimeout` callback runs on its own once its deadline is
reached: if the deadline `dl` is not after the current instant `t`, the
callback has already run (`timer = undefined; options.onTrigger?.(...)`). -/
def timerFire (s : WatchState) (t : Nat) : WatchState × List WatchOut :=
  match s.timer with
  | some de => if de.1 ≤ t then ({ s with timer := none }, [.trigger de.1 de.2]) else (s, [])
  | none => (s, [])

/-- The `if (isProcessing) return;` guard for an event arriving at time `t`:
it observes `true` exactly while the handler of the burst-leading event is
suspended awaiting the user's `onWillTrigger`. -/
def dropCheck (procUntil : Option Nat) (t : Nat) : Bool :=
  match procUntil with
  | some u => decide (t ≤ u)
  | none => false

/-- One invocation of the internal `onWillTrigger` handler of `delayWatch`
for an event `e` arriving at time `t`, preceded by the autonomous firing of
an already-due timer.  `userWill e` is the observable behaviour of the
user-supplied `onWillTrigger` on `e`: its duration in event-loop time and
whether it completes normally (`true`) or throws (`false`).  A watch with no
`onWillTrigger` behaves as `fun _ => (0, true)`.

Mirrors the source: a dropped event returns at the guard; if a timer is
armed it is cleared and re-armed for `t + delay` capturing `e` (no user
callback); otherwise the user `onWillTrigger` is awaited, and on normal
completion the timer is armed at `t + d` for deadline `t + d + delay`,
while on a throw the handler rejects (`uncaught`) and never re-arms the
timer nor resets `isProcessing`. -/
def watchStep (delay : Nat) (userWill : ChangeEvent → Nat × Bool) (s : WatchState)
    (t : Nat) (e : ChangeEvent) : WatchState × List WatchOut :=
  let f := timerFire s t
  let s1 := f.1
  if s1.stuck then (s1, f.2)
  else if dropCheck s1.procUntil t then (s1, f.2)
  else
    match s1.timer with
    | some _ => ({ s1 with timer := some (t + delay, e) }, f.2)
    | none =>
      let w := userWill e
      if w.2 then
        ({ s1 with timer := some (t + w.1 + delay, e), procUntil := some (t + w.1) },
          f.2 ++ [.willTrigger t e])
      else
        ({ s1 with procUntil := some (t + w.1), stuck := true },
          f.2 ++ [.willTrigger t e, .uncaught t])

/-- Deliver a time-ordered list of change events to one engine. -/
def watchRun (delay : Nat) (userWill : ChangeEvent → Nat × Bool) :
    WatchState → List (Nat × ChangeEvent) → WatchState × List WatchOut
  | s, [] => (s, [])
  | s, (t, e) :: rest =>
    let p := watchStep delay userWill s t e
    let q := watchRun delay userWill p.1 rest
    (q.1, p.2 ++ q.2)

/-- Initial engine state: no timer, not processing. -/
def watchInit : WatchState := { timer := none, procUntil := none, stuck := false }

/-- After the last input event, let time run to quiescence: a still-armed
timer fires at its deadline. -/
def watchFlush (s : WatchState) : List WatchOut :=
  match s.timer with
  | some de => [.trigger de.1 de.2]
  | none => []

/-- Complete observable behaviour of one `delayWatch` engine on a
time-ordered event sequence, including the trailing timer firing. -/
def delayWatchRun (delay : Nat) (userWill : ChangeEvent → Nat × Bool)
    (events : List (Nat × ChangeEvent)) : List WatchOut :=
  let p := watchRun delay userWill watchInit events
  p.2 ++ watchFlush p.1

/-- `BurstTimes delay prev l`: the events of `l` arrive at strictly
increasing times, each strictly less than `delay` after the previous one
(the previous arrival being `prev`). -/
def BurstTimes (delay : Nat) : Nat → List (Nat × ChangeEvent) → Prop
  | _, [] => True
  | prev, (t, _) :: rest => prev < t ∧ t < prev + delay ∧ BurstTimes delay t rest

/-- Last element of a nonempty list given as head plus tail. -/
def lastPair (p : Nat × ChangeEvent) : List (Nat × ChangeEvent) → Nat × ChangeEvent
  | [] => p
  | q :: rest => lastPair q rest

/-- Scanner for the two-phase callback protocol on a watch's output stream.
`altScan b l` consumes `l` expecting a leading-edge call next when `b = true`
and a trailing-edge call next when `b = false`; it returns `none` as soon as
two `willTrigger`s occur with no `trigger` between them (or a `trigger` with
no open window), and otherwise `some` of the final expectation.  `uncaught`
entries (handler rejections) are transparent. -/
def altScan : Bool → List WatchOut → Option Bool
  | b, [] => some b
  | b, .willTrigger _ _ :: l => if b then altScan false l else none
  | b, .trigger _ _ :: l => if b then none else altScan true l
  | b, .uncaught _ :: l => altScan b l

/-- The expectation of `altScan` at an engine state: a leading edge is the
next permitted output exactly when no timer is armed and the watch is not
wedged. -/
def watchExpect (s : WatchState) : Bool :=
  s.timer.isNone && !s.stuck

/-- Well-formedness of an engine state: a wedged watch (user `onWillTrigger`
threw) has no armed timer, because the throw happened before the arming
line.  Holds for every reachable state. -/
def watchWf (s : WatchState) : Prop :=
  s.stuck = true → s.timer = none

/-! ## Process supervisor (`startDevServer` and the `DEV_SERVER` watch)

`devServerRestartTimes` is the restart generation: the `DEV_SERVER` watch's
`onWillTrigger` increments it and kills the current process (awaiting its
exit) and its `onTrigger` calls `startDevServer`, which captures the
generation, sleeps the fixed 200 ms settle period, re-checks the generation,
and spawns only if no newer restart was requested.  One initial
`startDevServer()` call is made at session start (time 0). -/

/-- Observable supervisor actions: `restartReq g k` is the `DEV_SERVER`
watch's `onWillTrigger` bumping the generation to `g` and killing the
process `k` currently in the slot (if any); `spawned g p` is a
`startDevServer` attempt that captured generation `g` passing its settle
re-check and spawning process `p`. -/
inductive SupOut
  | restartReq (g : Nat) (killed : Option Nat)
  | spawned (g : Nat) (pid : Nat)
deriving DecidableEq

/-- Supervisor state.  `gen` is `devServerRestartTimes`; `slot` is the
`devServer` variable (the process handle, as a numeric id); `live` lists the
spawned processes that have not been killed (bookkeeping for the
at-most-one-live-process property, not a source variable); `pending` holds
the sleeping `startDevServer` attempts as `(wakeTime, capturedGeneration)`
pairs in wake order; `nextPid` numbers spawned processes; `log` records the
observable actions. -/
structure SupState where
  gen : Nat
  slot : Option Nat
  live : List Nat
  pending : List (Nat × Nat)
  nextPid : Nat
  log : List SupOut
deriving DecidableEq

/-- The settle re-check at the end of one sleeping `startDevServer` attempt
`w = (wakeTime, capturedGen)`: if `devServerRestartTimes` still equals the
captured value, spawn (`devServer = exec(cmdStart)`); otherwise return
silently. -/
def spawnCheck (s : SupState) (w : Nat × Nat) : SupState :=
  if w.2 = s.gen then
    { s with slot := some s.nextPid, live := s.live ++ [s.nextPid],
             nextPid := s.nextPid + 1, log := s.log ++ [.spawned w.2 s.nextPid] }
  else s

/-- Resolve, in wake order, every sleeping attempt whose wake time has been
reached by `now`, leaving the rest pending. -/
def runWakesAux (now : Nat) : List (Nat × Nat) → SupState → SupState
  | [], s => s
  | w :: rest, s =>
    if w.1 ≤ now then runWakesAux now rest (spawnCheck s w)
    else { s with pending := w :: rest }

/-- Advance the event loop to time `now`, running due settle-timer
continuations before the next external event is handled. -/
def runWakes (s : SupState) (now : Nat) : SupState :=
  runWakesAux now s.pending { s with pending := [] }

/-- Resolve every remaining sleeping attempt, in wake order (time running to
quiescence after the last watch event). -/
def flushAllAux : List (Nat × Nat) → SupState → SupState
  | [], s => s
  | w :: rest, s => flushAllAux rest (spawnCheck s w)

/-- Run all pending settle-timer continuations after the final event. -/
def flushAll (s : SupState) : SupState :=
  flushAllAux s.pending { s with pending := [] }

/-- The `DEV_SERVER` watch's `onWillTrigger`: increment
`devServerRestartTimes`; if a process is in the slot, kill it, await its
exit, and clear the slot. -/
def killPhase (s : SupState) : SupState :=
  { s with gen := s.gen + 1, slot := none,
           live := match s.slot with | some p => s.live.erase p | none => s.live,
           log := s.log ++ [.restartReq (s.gen + 1) s.slot] }

/-- One restart burst delivered by the debounce engine: the kill phase
(`onWillTrigger`) at time `b.1`, then the trigger (`onTrigger`, which calls
`startDevServer`, scheduling a wake 200 ms later capturing the current
generation) at time `b.2`.  Due settle continuations run before each
phase. -/
def supStep (s : SupState) (b : Nat × Nat) : SupState :=
  let s1 := runWakes s b.1
  let s2 := killPhase s1
  let s3 := runWakes s2 b.2
  { s3 with pending := s3.pending ++ [(b.2 + 200, s3.gen)] }

/-- Session-start supervisor state: generation 0, no process, and the one
unconditional `startDevServer()` call made at time 0 sleeping until 200. -/
def supInit : SupState :=
  { gen := 0, slot := none, live := [], pending := [(200, 0)], nextPid := 0, log := [] }

/-- Observable supervisor behaviour across a time-ordered list of restart
bursts `(killTime, triggerTime)`. -/
def runSup (bursts : List (Nat × Nat)) : SupState :=
  flushAll (List.foldl supStep supInit bursts)

/-- Scanner for supervisor logs: generations are requested in increasing
order `1, 2, …`, and a spawn for generation `g` may only appear once the
generation has reached `g` (so the kill phase that bumped the counter to `g`
precedes the spawn that captured `g`).  Returns the current generation, or
`none` on a violation. -/
def ordScan : Nat → List SupOut → Option Nat
  | cur, [] => some cur
  | cur, .restartReq g _ :: l => if g = cur + 1 then ordScan g l else none
  | cur, .spawned g _ :: l => if g ≤ cur then ordScan cur l else none

/-! ## Orchestrator callbacks (`cmdDev`) -/

/-- Filesystem actions emitted by the `AutoSync` watch's `onTrigger`. -/
inductive SyncAct
  | bulkSync
  | remove (dst : String)
  | copy (src dst : String)
  | chmod (dst : String) (mode : Nat)
deriving DecidableEq

/-- Model of the JS `String.prototype.startsWith` test applied to event
names (`eventName.startsWith('unlink')`). -/
def strStartsWith (s pre : String) : Bool := pre.data.isPrefixOf s.data

/-- Model of the JS `String.prototype.endsWith` test applied to event names
(`eventName.endsWith('Dir')`). -/
def strEndsWith (s suf : String) : Bool := suf.data.isSuffixOf s.data

/-- One fire of the `AutoSync` watch's `onTrigger`.  `mapDst` models
`path.resolve(confItem.to, path.relative(confItem.from, filepath))` (path
arithmetic is an external collaborator).  Returns the updated `isInited`
flag and the emitted actions, mirroring the source: first fire bulk-syncs
(`syncByConfigItem`) and sets `isInited`; later fires remove the destination
for `unlink*` events, and otherwise copy the changed path and chmod the
destination to `0o444` only when the event name does not end in `Dir`. -/
def autoSyncOnTrigger (mapDst : String → String) (isInited : Bool)
    (eventName : String) (filepath : String) : Bool × List SyncAct :=
  if !isInited then (true, [.bulkSync])
  else
    let dst := mapDst filepath
    if strStartsWith eventName "unlink" then (isInited, [.remove dst])
    else (isInited, .copy filepath dst ::
      (if strEndsWith eventName "Dir" then [] else [.chmod dst 0o444]))

/-- The `AutoSync` watch over a sequence of trailing-edge fires, threading
the per-watch `isInited` flag. -/
def autoSyncRun (mapDst : String → String) : Bool → List ChangeEvent → Bool × List SyncAct
  | inited, [] => (inited, [])
  | inited, e :: rest =>
    let p := autoSyncOnTrigger mapDst inited e.eventName e.filepath
    let q := autoSyncRun mapDst p.1 rest
    (q.1, p.2 ++ q.2)

/-- Actions emitted by the `AutoProto` watch's `onTrigger`. -/
inductive ProtoAct
  | logError (msg : String)
  | genApi (ptlDir apiDir : String)
deriving DecidableEq

/-- One fire of the `AutoProto` watch's `onTrigger`.  `res` is the outcome
of `ProtoUtil.genProtoByConfigItem` (an external collaborator): `.error msg`
when it rejects, `.ok proto` when it succeeds.  Mirrors the source: a
failure is caught, its message logged, and `newProto` becomes `undefined`;
API stubs are generated (`genApiFiles`) in the same trigger exactly when
`autoApi` is set, the regeneration succeeded, and `confItem.apiDir` is
configured. -/
def autoProtoOnTrigger (autoApi : Bool) (ptlDir : String) (apiDir : Option String)
    (res : Except String Nat) : List ProtoAct :=
  match res with
  | .error msg => [.logError msg]
  | .ok _ =>
    if autoApi then
      match apiDir with
      | some d => [.genApi ptlDir d]
      | none => []
    else []

/-- One entry of the `sync` configuration list. -/
structure SyncItem where
  type : String
  from_ : String
  to_ : String
deriving DecidableEq

/-- One entry of the `proto` configuration list. -/
structure ProtoItem where
  ptlDir : String
  output : String
  apiDir : Option String
deriving DecidableEq

/-- The `dev` section of `TsrpcConfig` (fields the core reads). -/
structure DevConf where
  autoProto : Option Bool
  autoSync : Option Bool
  autoApi : Option Bool
  delay : Option Nat
deriving DecidableEq

/-- The configuration object consumed by `cmdDev`. -/
structure TsrpcConf where
  dev : Option DevConf
  proto : Option (List ProtoItem)
  sync : Option (List SyncItem)
deriving DecidableEq

/-- Observable outcome of session start (`cmdDev` up to the point where all
watches are installed and the initial `startDevServer()` is issued). -/
structure Session where
  linkAttempts : List (String × String)
  watchIds : List String
  devServerStarted : Bool
  err : Option String
deriving DecidableEq

/-- Execute the one-time symlink setups sequentially, in list order.
`lr f t` is the outcome of `ensureSymlink f t` (an external
collaborator).  Returns the attempted `(from, to)` pairs in order and the
first failure, if any; items after a failure are not attempted because the
rejection propagates out of `cmdDev`'s `await`. -/
def runLinks (lr : String → String → Except String Unit) :
    List SyncItem → List (String × String) × Option String
  | [] => ([], none)
  | it :: rest =>
    match lr it.from_ it.to_ with
    | .ok _ =>
      let r := runLinks lr rest
      ((it.from_, it.to_) :: r.1, r.2)
    | .error msg => ([(it.from_, it.to_)], some msg)

/-- The symlink entries of the `sync` configuration, in configuration
order (`conf.sync.filter(v => v.type === 'symlink')`). -/
def symlinkItems (conf : TsrpcConf) : List SyncItem :=
  match conf.sync with
  | some ss => ss.filter (fun v => v.type = "symlink")
  | none => []

/-- The `watchId`s `cmdDev` registers after the symlink phase: one
`AutoProto_i` per proto item when `autoProto` (default true), one
`AutoSync_idx` per copy entry of `sync` (indexed by its position in the full
`sync` list) when `autoSync` (default true), and the `DEV_SERVER` watch. -/
def watchIdsOf (conf : TsrpcConf) : List String :=
  let autoProto := (conf.dev.bind DevConf.autoProto).getD true
  let autoSync := (conf.dev.bind DevConf.autoSync).getD true
  (if autoProto then
    match conf.proto with
    | some ps => (List.range ps.length).map (fun i => "AutoProto_" ++ toString i)
    | none => []
   else [])
  ++ (if autoSync then
    match conf.sync with
    | some ss => ss.enum.filterMap
        (fun p => if p.2.type = "copy" then some ("AutoSync_" ++ toString p.1) else none)
    | none => []
   else [])
  ++ ["DEV_SERVER"]

/-- Session start: run the symlink setups first; a failure aborts `cmdDev`
before any watch is registered and before the initial `startDevServer()`;
on success all configured watches are registered and the dev server is
started. -/
def cmdDevModel (lr : String → String → Except String Unit) (conf : TsrpcConf) : Session :=
  let r := runLinks lr (symlinkItems conf)
  match r.2 with
  | some msg =>
    { linkAttempts := r.1, watchIds := [], devServerStarted := false, err := some msg }
  | none =>
    { linkAttempts := r.1, watchIds := watchIdsOf conf, devServerStarted := true, err := none }

/-- Supervisor invariant, stated over a state whose `pending` field has been
set aside as the explicit list `l` (the wake queue still to be considered):
the `live` bookkeeping matches the process slot (so at most one process is
ever live); every sleeping attempt captured a generation no newer than the
current one; if a process is in the slot, every sleeping attempt is stale;
captured generations are strictly increasing along the wake queue; and the
log scans correctly with the current generation as final value. -/
def SupInvCore (s : SupState) (l : List (Nat × Nat)) : Prop :=
  (s.live = match s.slot with | some p => [p] | none => []) ∧
  (∀ w ∈ l, w.2 ≤ s.gen) ∧
  (s.slot.isSome = true → ∀ w ∈ l, w.2 < s.gen) ∧
  l.Pairwise (fun a b => a.2 < b.2) ∧
  ordScan 0 s.log = some s.gen

/-- Supervisor invariant of a full state. -/
def SupInv (s : SupState) : Prop := SupInvCore s s.pending

/-! ## Engine step lemmas -/

/-- A due timer fires and, with the window thereby closed, the event opens a
fresh window (leading edge with an instantly completing user callback). -/
lemma watchStep_fire_lead (delay : Nat) (uw : ChangeEvent → Nat × Bool) (s : WatchState)
    (t : Nat) (e : ChangeEvent) (dl : Nat) (ev : ChangeEvent)
    (hst : s.stuck = false) (ht : s.timer = some (dl, ev)) (hdl : dl ≤ t)
    (hdrop : dropCheck s.procUntil t = false) (hok : uw e = (0, true)) :
    watchStep delay uw s t e =
      ({ s with timer := some (t + delay, e), procUntil := some t },
        [.trigger dl ev, .willTrigger t e]) := by
  unfold watchStep timerFire
  rw [ht]
  simp [hst, hdrop, hdl, hok]

/-- An event arriving while a timer is armed and not yet due cancels and
re-arms it, capturing the new event, with no further output. -/
lemma watchStep_rearm (delay : Nat) (uw : ChangeEvent → Nat × Bool) (s : WatchState)
    (t : Nat) (e : ChangeEvent) (dl : Nat) (ev : ChangeEvent)
    (hst : s.stuck = false) (ht : s.timer = some (dl, ev)) (hdl : t < dl)
    (hdrop : dropCheck s.procUntil t = false) :
    watchStep delay uw s t e = ({ s with timer := some (t + delay, e) }, []) := by
  unfold watchStep timerFire
  rw [ht]
  simp [hst, hdrop, Nat.not_le.mpr hdl, ht]

/-- A leading event with no timer armed invokes the user's `onWillTrigger`;
on normal completion after `d` time units the timer is armed for
`t + d + delay`. -/
lemma watchStep_leading (delay : Nat) (uw : ChangeEvent → Nat × Bool) (s : WatchState)
    (t : Nat) (e : ChangeEvent) (d : Nat)
    (hst : s.stuck = false) (ht : s.timer = none)
    (hdrop : dropCheck s.procUntil t = false) (hok : uw e = (d, true)) :
    watchStep delay uw s t e =
      ({ s with timer := some (t + d + delay, e), procUntil := some (t + d) },
        [.willTrigger t e]) := by
  unfold watchStep timerFire
  rw [ht]
  simp [hst, hdrop, hok, ht]

/-- Within a burst (consecutive gaps strictly below `delay`), every event
after the first re-arms the timer and produces no output; the timer ends up
armed for the last event. -/
lemma watchRun_burst (delay : Nat) (rest : List (Nat × ChangeEvent)) :
    ∀ (prev pu : Nat) (evp : ChangeEvent), pu ≤ prev → BurstTimes delay prev rest →
      watchRun delay (fun _ => (0, true))
          ⟨some (prev + delay, evp), some pu, false⟩ rest =
        (⟨some ((lastPair (prev, evp) rest).1 + delay, (lastPair (prev, evp) rest).2),
          some pu, false⟩, []) := by
  induction rest with
  | nil => intro prev pu evp _ _; simp [watchRun, lastPair]
  | cons p rest ih =>
    intro prev pu evp hpu hb
    obtain ⟨t, e⟩ := p
    simp only [BurstTimes] at hb
    obtain ⟨h1, h2, h3⟩ := hb
    simp only [watchRun]
    rw [watchStep_rearm delay _ _ t e (prev + delay) evp rfl rfl h2
      (by simp [dropCheck]; omega)]
    simp only [lastPair]
    rw [ih t pu e (by omega) h3]
    simp

/-- The last arrival time of a burst is at least the first. -/
lemma lastPair_fst_ge (delay : Nat) (rest : List (Nat × ChangeEvent)) :
    ∀ (prev : Nat) (evp : ChangeEvent), BurstTimes delay prev rest →
      prev ≤ (lastPair (prev, evp) rest).1 := by
  induction rest with
  | nil => intro prev evp _; simp [lastPair]
  | cons p rest ih =>
    intro prev evp hb
    obtain ⟨t, e⟩ := p
    simp only [BurstTimes] at hb
    obtain ⟨h1, _, h3⟩ := hb
    simp only [lastPair]
    exact le_trans (le_of_lt h1) (ih t e h3)

/-- C1 counterexample: the claim fails when the burst-leading
`onWillTrigger` is still running when the next event arrives.  With
`delay = 1000` and a user `onWillTrigger` taking 10 time units, events at
t=0 and t=5 are separated by less than `delay`, yet `onTrigger` never
receives the last event (`src/b.ts`): the second event is discarded by the
`isProcessing` guard and the trigger fires with the first event. -/
theorem delayWatch_lastEvent_counterexample :
    WatchOut.trigger 1010 ⟨"change", "src/b.ts"⟩ ∉
      delayWatchRun 1000 (fun _ => (10, true))
        [(0, ⟨"change", "src/a.ts"⟩), (5, ⟨"change", "src/b.ts"⟩)] ∧
    delayWatchRun 1000 (fun _ => (10, true))
        [(0, ⟨"change", "src/a.ts"⟩), (5, ⟨"change", "src/b.ts"⟩)] =
      [.willTrigger 0 ⟨"change", "src/a.ts"⟩, .trigger 1010 ⟨"change", "src/a.ts"⟩] := by
  constructor
  · decide
  · decide

/-- C1 (amended): for every sequence of ChangeEvents delivered to one watch
at strictly increasing times with consecutive events separated by strictly
less than `delay`, and whose burst-leading user `onWillTrigger` completes
before the next event arrives (instantaneous, `fun _ => (0, true)` — e.g. a
watch with no `onWillTrigger`), the engine invokes `onWillTrigger` exactly
once, at the first event, and `onTrigger` exactly once, `delay` after the
last event, with the last event as payload. -/
theorem delayWatch_burst_single_trigger (delay t0 : Nat) (e0 : ChangeEvent)
    (rest : List (Nat × ChangeEvent)) (hb : BurstTimes delay t0 rest) :
    delayWatchRun delay (fun _ => (0, true)) ((t0, e0) :: rest) =
      [.willTrigger t0 e0,
       .trigger ((lastPair (t0, e0) rest).1 + delay) (lastPair (t0, e0) rest).2] := by
  unfold delayWatchRun
  simp only [watchRun]
  rw [watchStep_leading delay _ watchInit t0 e0 0 rfl rfl (by simp [dropCheck, watchInit]) rfl]
  have : ({ watchInit with timer := some (t0 + 0 + delay, e0), procUntil := some (t0 + 0) }
      : WatchState) = ⟨some (t0 + delay, e0), some t0, false⟩ := by
    simp [watchInit]
  rw [this, watchRun_burst delay rest t0 t0 e0 (le_refl t0) hb]
  simp [watchFlush]

/-- Witness for the amended C1, at the spec's own concrete scenario:
`delay = 1000`, `change src/a.ts` at t=0, `change src/b.ts` at t=300; the
engine signals the leading edge at t=0 and fires `onTrigger` at t=1300 with
the `src/b.ts` event. -/
theorem delayWatch_burst_single_trigger_witness :
    delayWatchRun 1000 (fun _ => (0, true))
        [(0, ⟨"change", "src/a.ts"⟩), (300, ⟨"change", "src/b.ts"⟩)] =
      [.willTrigger 0 ⟨"change", "src/a.ts"⟩, .trigger 1300 ⟨"change", "src/b.ts"⟩] := by
  have h := delayWatch_burst_single_trigger 1000 0 ⟨"change", "src/a.ts"⟩
    [(300, ⟨"change", "src/b.ts"⟩)] ⟨by omega, by omega, trivial⟩
  simpa [lastPair] using h

/-- `watchRun` distributes over list append. -/
lemma watchRun_append (delay : Nat) (uw : ChangeEvent → Nat × Bool)
    (l1 l2 : List (Nat × ChangeEvent)) : ∀ s : WatchState,
    watchRun delay uw s (l1 ++ l2) =
      ((watchRun delay uw (watchRun delay uw s l1).1 l2).1,
       (watchRun delay uw s l1).2 ++ (watchRun delay uw (watchRun delay uw s l1).1 l2).2) := by
  induction l1 with
  | nil => intro s; simp [watchRun]
  | cons p l1 ih =>
    intro s
    obtain ⟨t, e⟩ := p
    simp only [List.cons_append, watchRun, List.append_eq]
    rw [ih (watchStep delay uw s t e).1]
    simp [List.append_assoc]

/-- C2 (confirmed): after a burst has gone quiet and its `onTrigger` fired,
a new event arriving strictly later than `delay` after the burst's last
event opens a fresh window: a new `onWillTrigger` fires for it and a
separate `onTrigger` fires for the new window; windows do not merge across
the quiet gap.  (Engine with an instantly completing user `onWillTrigger`.) -/
theorem delayWatch_fresh_burst_after_quiet (delay t0 : Nat) (e0 : ChangeEvent)
    (rest : List (Nat × ChangeEvent)) (t : Nat) (e : ChangeEvent)
    (hb : BurstTimes delay t0 rest) (hq : (lastPair (t0, e0) rest).1 + delay < t) :
    delayWatchRun delay (fun _ => (0, true)) (((t0, e0) :: rest) ++ [(t, e)]) =
      [.willTrigger t0 e0,
       .trigger ((lastPair (t0, e0) rest).1 + delay) (lastPair (t0, e0) rest).2,
       .willTrigger t e, .trigger (t + delay) e] := by
  have hfirst : watchRun delay (fun _ => (0, true)) watchInit ((t0, e0) :: rest) =
      (⟨some ((lastPair (t0, e0) rest).1 + delay, (lastPair (t0, e0) rest).2),
        some t0, false⟩, [WatchOut.willTrigger t0 e0]) := by
    simp only [watchRun]
    rw [watchStep_leading delay _ watchInit t0 e0 0 rfl rfl (by simp [dropCheck, watchInit]) rfl]
    have hrec : ({ watchInit with timer := some (t0 + 0 + delay, e0), procUntil := some (t0 + 0) }
        : WatchState) = ⟨some (t0 + delay, e0), some t0, false⟩ := by
      simp [watchInit]
    rw [hrec, watchRun_burst delay rest t0 t0 e0 (le_refl t0) hb]
    simp
  have ht0 : t0 ≤ (lastPair (t0, e0) rest).1 := lastPair_fst_ge delay rest t0 e0 hb
  unfold delayWatchRun
  rw [watchRun_append delay _ ((t0, e0) :: rest) [(t, e)] watchInit, hfirst]
  simp only [watchRun]
  rw [watchStep_fire_lead delay _ _ t e ((lastPair (t0, e0) rest).1 + delay)
    (lastPair (t0, e0) rest).2 rfl rfl (le_of_lt hq) (by simp [dropCheck]; omega) rfl]
  simp [watchFlush]

/-- Witness for C2: single-event burst at t=0, quiet through t=1000 where
`onTrigger` fires, then a fresh event at t=1500 producing a second
`onWillTrigger`/`onTrigger` pair. -/
theorem delayWatch_fresh_burst_after_quiet_witness :
    delayWatchRun 1000 (fun _ => (0, true))
        [(0, ⟨"change", "src/a.ts"⟩), (1500, ⟨"change", "src/b.ts"⟩)] =
      [.willTrigger 0 ⟨"change", "src/a.ts"⟩, .trigger 1000 ⟨"change", "src/a.ts"⟩,
       .willTrigger 1500 ⟨"change", "src/b.ts"⟩, .trigger 2500 ⟨"change", "src/b.ts"⟩] := by
  have h := delayWatch_fresh_burst_after_quiet 1000 0 ⟨"change", "src/a.ts"⟩ []
    1500 ⟨"change", "src/b.ts"⟩ trivial (by simp [lastPair])
  simpa [lastPair] using h

/-- `altScan` distributes over list append. -/
lemma altScan_append (l1 l2 : List WatchOut) : ∀ b : Bool,
    altScan b (l1 ++ l2) = (altScan b l1).bind (fun c => altScan c l2) := by
  induction l1 with
  | nil => intro b; simp [altScan]
  | cons o l1 ih =>
    intro b
    cases o <;> cases b <;> simp [altScan, ih]

/-- One engine step preserves well-formedness and emits outputs matching the
two-phase protocol, leaving the expectation of the resulting state. -/
lemma watchStep_alt (delay : Nat) (uw : ChangeEvent → Nat × Bool) (s : WatchState)
    (t : Nat) (e : ChangeEvent) (hwf : watchWf s) :
    altScan (watchExpect s) (watchStep delay uw s t e).2 =
      some (watchExpect (watchStep delay uw s t e).1) ∧
    watchWf (watchStep delay uw s t e).1 := by
  obtain ⟨tm, pu, st⟩ := s
  cases st with
  | true =>
    have htm : tm = none := hwf rfl
    subst htm
    simp [watchStep, timerFire, watchExpect, watchWf, altScan]
  | false =>
    cases tm with
    | none =>
      by_cases hd : dropCheck pu t
      · simp [watchStep, timerFire, hd, watchExpect, watchWf, altScan]
      · rcases hw : uw e with ⟨d, ok⟩
        cases ok <;>
          simp [watchStep, timerFire, hd, hw, watchExpect, watchWf, altScan]
    | some de =>
      by_cases hdl : de.1 ≤ t
      · by_cases hd : dropCheck pu t
        · simp [watchStep, timerFire, hdl, hd, watchExpect, watchWf, altScan]
        · rcases hw : uw e with ⟨d, ok⟩
          cases ok <;>
            simp [watchStep, timerFire, hdl, hd, hw, watchExpect, watchWf, altScan]
      · by_cases hd : dropCheck pu t
        · simp [watchStep, timerFire, hdl, hd, watchExpect, watchWf, altScan]
        · simp [watchStep, timerFire, hdl, hd, watchExpect, watchWf, altScan]

/-- Over any event sequence, the engine's outputs respect the two-phase
protocol, and well-formedness is preserved. -/
lemma watchRun_alt (delay : Nat) (uw : ChangeEvent → Nat × Bool)
    (events : List (Nat × ChangeEvent)) : ∀ s : WatchState, watchWf s →
    altScan (watchExpect s) (watchRun delay uw s events).2 =
      some (watchExpect (watchRun delay uw s events).1) ∧
    watchWf (watchRun delay uw s events).1 := by
  induction events with
  | nil => intro s hwf; exact ⟨rfl, hwf⟩
  | cons p events ih =>
    intro s hwf
    obtain ⟨t, e⟩ := p
    obtain ⟨h1, h2⟩ := watchStep_alt delay uw s t e hwf
    obtain ⟨h3, h4⟩ := ih (watchStep delay uw s t e).1 h2
    simp only [watchRun]
    refine ⟨?_, h4⟩
    rw [altScan_append, h1]
    simpa using h3

/-- The trailing flush also respects the protocol. -/
lemma watchFlush_alt (s : WatchState) :
    (altScan (watchExpect s) (watchFlush s)).isSome = true := by
  obtain ⟨tm, pu, st⟩ := s
  cases tm <;> cases st <;> simp [watchFlush, watchExpect, altScan]

/-- C3: (i) on every event sequence and every user-callback behaviour, the
output stream alternates `onWillTrigger`/`onTrigger` starting from a closed
window — so at most one `onWillTrigger` occurs per open window, and every
`onTrigger` closes the window its `onWillTrigger` opened (the state carries
a single optional timer slot, so at most one timer is pending at any
instant, by construction); (ii) an event arriving while the timer is armed
and not yet due cancels and re-arms it for `t + delay` with the new event
captured, emitting no callback at all. -/
theorem delayWatch_alternation_and_rearm (delay : Nat) (uw : ChangeEvent → Nat × Bool)
    (events : List (Nat × ChangeEvent)) :
    (altScan true (delayWatchRun delay uw events)).isSome = true ∧
    ∀ (s : WatchState) (t : Nat) (e : ChangeEvent) (dl : Nat) (ev : ChangeEvent),
      s.stuck = false → s.timer = some (dl, ev) → dropCheck s.procUntil t = false →
      t < dl → watchStep delay uw s t e = ({ s with timer := some (t + delay, e) }, []) := by
  constructor
  · unfold delayWatchRun
    obtain ⟨h1, _⟩ := watchRun_alt delay uw events watchInit (fun _ => rfl)
    rw [altScan_append]
    have hexp : watchExpect watchInit = true := rfl
    rw [hexp] at h1
    rw [h1]
    simpa using watchFlush_alt (watchRun delay uw watchInit events).1
  · intro s t e dl ev h1 h2 h3 h4
    exact watchStep_rearm delay uw s t e dl ev h1 h2 h4 h3

/-- Witness for C3 at concrete inputs: a one-event run satisfies the
protocol scan, and a concrete armed state is re-armed by a new event. -/
theorem delayWatch_alternation_and_rearm_witness :
    (altScan true (delayWatchRun 1000 (fun _ => (0, true))
        [(0, ⟨"change", "src/a.ts"⟩)])).isSome = true ∧
    watchStep 1000 (fun _ => (0, true))
        ⟨some (1300, ⟨"change", "src/a.ts"⟩), some 0, false⟩ 600 ⟨"change", "src/b.ts"⟩ =
      (⟨some (1600, ⟨"change", "src/b.ts"⟩), some 0, false⟩, []) := by
  have h := delayWatch_alternation_and_rearm 1000 (fun _ => (0, true))
    [(0, ⟨"change", "src/a.ts"⟩)]
  refine ⟨h.1, ?_⟩
  have h2 := h.2 ⟨some (1300, ⟨"change", "src/a.ts"⟩), some 0, false⟩ 600
    ⟨"change", "src/b.ts"⟩ 1300 ⟨"change", "src/a.ts"⟩ rfl rfl (by decide) (by decide)
  simpa using h2

/-- C4 (code evidence): when the user `onWillTrigger` throws at the burst's
first event, the internal handler rejects before re-arming the timer and
before resetting `isProcessing`, so the flag stays `true` forever: every
subsequent event — even whole bursts more than `delay` later — is discarded
and no `onTrigger` ever fires again on this watch.  The claim (and the
spec's error-handling design) says the watch must keep processing subsequent
events as if the callback had succeeded; the code wedges the watch instead. -/
theorem delayWatch_willTrigger_error_wedges_watch :
    delayWatchRun 1000 (fun _ => (0, false))
        [(0, ⟨"change", "src/a.ts"⟩), (2000, ⟨"change", "src/b.ts"⟩),
         (4000, ⟨"change", "src/c.ts"⟩)] =
      [.willTrigger 0 ⟨"change", "src/a.ts"⟩, .uncaught 0] := by
  decide

/-- C10: a ChangeEvent arriving while the engine is still awaiting the
user's `onWillTrigger` for an earlier event of the same watch (the
`isProcessing` guard observes `true`, and any armed timer is not yet due) is
discarded entirely: the step emits no callback and leaves the state — in
particular the debounce timer and its captured payload — exactly unchanged,
so the dropped event can never become the `onTrigger` payload. -/
theorem delayWatch_drop_while_processing (delay : Nat) (uw : ChangeEvent → Nat × Bool)
    (s : WatchState) (t : Nat) (e : ChangeEvent) (u : Nat)
    (hst : s.stuck = false) (hpu : s.procUntil = some u) (hle : t ≤ u)
    (htm : ∀ dl ev, s.timer = some (dl, ev) → t < dl) :
    watchStep delay uw s t e = (s, []) := by
  unfold watchStep timerFire
  rcases htmr : s.timer with _ | ⟨dl, ev⟩
  · simp [hst, dropCheck, hpu, hle]
  · have hlt := htm dl ev htmr
    simp [hst, dropCheck, hpu, hle, Nat.not_le.mpr hlt, htmr]

/-- Witness for C10: with `delay = 1000` and the leading event at t=0 whose
user callback runs until t=10 (timer armed for t=1010), an event at t=5 is
dropped with no state change and no output. -/
theorem delayWatch_drop_while_processing_witness :
    watchStep 1000 (fun _ => (10, true))
        ⟨some (1010, ⟨"change", "src/a.ts"⟩), some 10, false⟩ 5 ⟨"change", "src/b.ts"⟩ =
      (⟨some (1010, ⟨"change", "src/a.ts"⟩), some 10, false⟩, []) := by
  exact delayWatch_drop_while_processing 1000 (fun _ => (10, true))
    ⟨some (1010, ⟨"change", "src/a.ts"⟩), some 10, false⟩ 5 ⟨"change", "src/b.ts"⟩ 10
    rfl rfl (by decide)
    (by intro dl ev h; simp only [Option.some.injEq, Prod.mk.injEq] at h; omega)

/-! ## Supervisor lemmas -/

/-- `ordScan` distributes over list append. -/
lemma ordScan_append (l1 l2 : List SupOut) : ∀ c : Nat,
    ordScan c (l1 ++ l2) = (ordScan c l1).bind (fun c2 => ordScan c2 l2) := by
  induction l1 with
  | nil => intro c; simp [ordScan]
  | cons o l1 ih =>
    intro c
    cases o with
    | restartReq g k => by_cases hg : g = c + 1 <;> simp [ordScan, hg, ih]
    | spawned g p => by_cases hg : g ≤ c <;> simp [ordScan, hg, ih]

/-- `spawnCheck` does not touch the pending queue. -/
lemma spawnCheck_pending (s : SupState) (w : Nat × Nat) :
    (spawnCheck s w).pending = s.pending := by
  unfold spawnCheck
  split <;> rfl

/-- A stale attempt (captured generation differs from the current one)
returns silently. -/
lemma spawnCheck_stale (s : SupState) (w : Nat × Nat) (h : ¬ w.2 = s.gen) :
    spawnCheck s w = s := by
  simp [spawnCheck, h]

/-- Resolving the next sleeping attempt preserves the supervisor
invariant. -/
lemma spawnCheck_inv (s : SupState) (w : Nat × Nat) (l : List (Nat × Nat))
    (h : SupInvCore s (w :: l)) : SupInvCore (spawnCheck s w) l := by
  obtain ⟨c1, c2, c3, c4, c5⟩ := h
  by_cases hg : w.2 = s.gen
  · have hslot : s.slot = none := by
      cases hs : s.slot with
      | none => rfl
      | some p =>
        have hw := c3 (by simp [hs]) w (List.mem_cons_self w l)
        omega
    have hlive : s.live = [] := by rw [c1, hslot]
    have habs : ∀ v ∈ l, False := by
      intro v hv
      have hp1 := (List.pairwise_cons.mp c4).1 v hv
      have hp2 := c2 v (List.mem_cons_of_mem w hv)
      omega
    refine ⟨?_, ?_, ?_, ?_, ?_⟩
    · simp [spawnCheck, hg, hlive]
    · intro v hv; exact absurd (habs v hv) not_false
    · intro _ v hv; exact absurd (habs v hv) not_false
    · exact (List.pairwise_cons.mp c4).2
    · show ordScan 0 (spawnCheck s w).log = some (spawnCheck s w).gen
      rw [show (spawnCheck s w).log = s.log ++ [SupOut.spawned w.2 s.nextPid] by
            simp [spawnCheck, hg],
          show (spawnCheck s w).gen = s.gen by simp [spawnCheck, hg]]
      rw [ordScan_append, c5]
      simp [ordScan, hg]
  · rw [spawnCheck_stale s w hg]
    exact ⟨c1, fun v hv => c2 v (List.mem_cons_of_mem w hv),
      fun hs v hv => c3 hs v (List.mem_cons_of_mem w hv),
      (List.pairwise_cons.mp c4).2, c5⟩

/-- Running due wakes preserves the supervisor invariant. -/
lemma runWakesAux_inv (now : Nat) : ∀ (l : List (Nat × Nat)) (s : SupState),
    s.pending = [] → SupInvCore s l → SupInv (runWakesAux now l s) := by
  intro l
  induction l with
  | nil =>
    intro s hp h
    show SupInvCore s s.pending
    rw [hp]
    exact h
  | cons w rest ih =>
    intro s hp h
    simp only [runWakesAux]
    by_cases hw : w.1 ≤ now
    · rw [if_pos hw]
      exact ih (spawnCheck s w) (by rw [spawnCheck_pending, hp]) (spawnCheck_inv s w rest h)
    · rw [if_neg hw]
      exact h

/-- Resolving all remaining wakes preserves the supervisor invariant. -/
lemma flushAllAux_inv : ∀ (l : List (Nat × Nat)) (s : SupState),
    s.pending = [] → SupInvCore s l → SupInv (flushAllAux l s) := by
  intro l
  induction l with
  | nil =>
    intro s hp h
    show SupInvCore s s.pending
    rw [hp]
    exact h
  | cons w rest ih =>
    intro s hp h
    simp only [flushAllAux]
    exact ih (spawnCheck s w) (by rw [spawnCheck_pending, hp]) (spawnCheck_inv s w rest h)

/-- After a kill phase, every sleeping attempt is stale, so running wakes
changes nothing but the pending queue, whose entries all stay stale and
ordered. -/
lemma runWakesAux_stale (now : Nat) : ∀ (l : List (Nat × Nat)) (s : SupState),
    s.pending = [] → (∀ w ∈ l, w.2 < s.gen) → l.Pairwise (fun a b => a.2 < b.2) →
    (runWakesAux now l s).gen = s.gen ∧ (runWakesAux now l s).slot = s.slot ∧
    (runWakesAux now l s).live = s.live ∧ (runWakesAux now l s).log = s.log ∧
    (∀ w ∈ (runWakesAux now l s).pending, w.2 < s.gen) ∧
    (runWakesAux now l s).pending.Pairwise (fun a b => a.2 < b.2) := by
  intro l
  induction l with
  | nil =>
    intro s hp _ _
    refine ⟨rfl, rfl, rfl, rfl, ?_, ?_⟩
    · intro w hw
      rw [show (runWakesAux now [] s).pending = s.pending from rfl, hp] at hw
      exact absurd hw (List.not_mem_nil w)
    · rw [show (runWakesAux now [] s).pending = s.pending from rfl, hp]
      exact List.Pairwise.nil
  | cons w rest ih =>
    intro s hp hst hpw
    simp only [runWakesAux]
    by_cases hw : w.1 ≤ now
    · rw [if_pos hw]
      rw [spawnCheck_stale s w (by have := hst w (List.mem_cons_self w rest); omega)]
      exact ih s hp (fun v hv => hst v (List.mem_cons_of_mem w hv))
        (List.pairwise_cons.mp hpw).2
    · rw [if_neg hw]
      exact ⟨rfl, rfl, rfl, rfl, hst, hpw⟩

/-- One restart burst preserves the supervisor invariant. -/
lemma supStep_inv (s : SupState) (b : Nat × Nat) (h : SupInv s) :
    SupInv (supStep s b) := by
  have h1 : SupInv (runWakes s b.1) :=
    runWakesAux_inv b.1 s.pending { s with pending := [] } rfl h
  set s1 := runWakes s b.1 with hs1
  obtain ⟨c1, c2, c3, c4, c5⟩ := h1
  set s2 := killPhase s1 with hs2
  have k_gen : s2.gen = s1.gen + 1 := rfl
  have k_slot : s2.slot = none := rfl
  have k_pending : s2.pending = s1.pending := rfl
  have k_live : s2.live = [] := by
    show (match s1.slot with | some p => s1.live.erase p | none => s1.live) = []
    cases hs : s1.slot with
    | none => rw [c1, hs]
    | some p =>
      have hl : s1.live = [p] := by rw [c1, hs]
      rw [hl]
      simp
  have k_log : ordScan 0 s2.log = some s2.gen := by
    show ordScan 0 (s1.log ++ [SupOut.restartReq (s1.gen + 1) s1.slot]) = some s2.gen
    rw [ordScan_append, c5, k_gen]
    simp [ordScan]
  have k_stale : ∀ w ∈ s2.pending, w.2 < s2.gen := by
    intro w hw
    rw [k_pending] at hw
    have := c2 w hw
    rw [k_gen]
    omega
  have h3 := runWakesAux_stale b.2 s2.pending { s2 with pending := [] } rfl
    (fun w hw => k_stale w hw) (k_pending ▸ c4)
  set s3 := runWakesAux b.2 s2.pending { s2 with pending := [] } with hs3
  obtain ⟨g3, sl3, lv3, lg3, pd3, pw3⟩ := h3
  have g3' : s3.gen = s2.gen := g3
  have sl3' : s3.slot = none := by rw [sl3]; exact k_slot
  have lv3' : s3.live = [] := by rw [lv3]; exact k_live
  show SupInvCore { s3 with pending := s3.pending ++ [(b.2 + 200, s3.gen)] }
    (s3.pending ++ [(b.2 + 200, s3.gen)])
  refine ⟨?_, ?_, ?_, ?_, ?_⟩
  · show s3.live = (match s3.slot with | some p => [p] | none => ([] : List Nat))
    rw [lv3', sl3']
  · intro w hw
    rcases List.mem_append.mp hw with hw | hw
    · have := pd3 w hw
      show w.2 ≤ s3.gen
      rw [g3']
      omega
    · rw [List.mem_singleton.mp hw]
  · intro hcon
    rw [show ({ s3 with pending := s3.pending ++ [(b.2 + 200, s3.gen)] } : SupState).slot
      = s3.slot from rfl, sl3'] at hcon
    exact absurd hcon (by simp)
  · rw [List.pairwise_append]
    refine ⟨pw3, List.pairwise_singleton _ _, ?_⟩
    intro a ha v hv
    rw [List.mem_singleton.mp hv]
    have := pd3 a ha
    show a.2 < s3.gen
    rw [g3']
    omega
  · show ordScan 0 s3.log = some s3.gen
    rw [lg3, g3']
    exact k_log

/-- The supervisor invariant holds at session start. -/
lemma supInit_inv : SupInv supInit := by
  refine ⟨rfl, ?_, ?_, ?_, rfl⟩
  · intro w hw
    rw [show supInit.pending = [(200, 0)] from rfl] at hw
    rw [List.mem_singleton.mp hw]
    exact Nat.le_refl 0
  · intro hcon
    exact absurd hcon (by simp [supInit])
  · rw [show supInit.pending = [(200, 0)] from rfl]
    exact List.pairwise_singleton _ _

/-- The supervisor invariant holds after any sequence of bursts. -/
lemma foldl_supStep_inv (bursts : List (Nat × Nat)) :
    SupInv (List.foldl supStep supInit bursts) := by
  suffices h : ∀ s : SupState, SupInv s → SupInv (List.foldl supStep s bursts) from
    h supInit supInit_inv
  induction bursts with
  | nil => intro s hs; exact hs
  | cons b bursts ih => intro s hs; exact ih (supStep s b) (supStep_inv s b hs)

/-- C6: across every sequence of restart bursts (and hence at every instant
of every run — a state reachable mid-run is the state after a prefix of
bursts, to which this theorem equally applies), at most one supervised child
process is live, and the log is well-ordered: generations are requested in
increasing order and a spawn that captured generation `g` occurs only after
the kill phase that raised the counter to `g`, so the kill-initiation of a
burst always precedes the spawn of the same burst. -/
theorem devServer_at_most_one_live_process (bursts : List (Nat × Nat)) :
    (runSup bursts).live.length ≤ 1 ∧
    (ordScan 0 (runSup bursts).log).isSome = true := by
  have h : SupInv (runSup bursts) := by
    unfold runSup flushAll
    exact flushAllAux_inv (List.foldl supStep supInit bursts).pending
      { List.foldl supStep supInit bursts with pending := [] } rfl
      (foldl_supStep_inv bursts)
  obtain ⟨c1, _, _, _, c5⟩ := h
  constructor
  · rw [c1]
    cases (runSup bursts).slot <;> simp
  · rw [c5]
    rfl

/-- C5: two restart requests within one settle window produce exactly one
kill-then-spawn cycle.  A process is running (spawned by the initial
`startDevServer` attempt once its settle elapsed before the first burst);
burst 1 (kill at `t1`, trigger at `u1`) kills it and schedules a spawn
attempt capturing generation 1; burst 2 (kill at `t2`, trigger at `u2`)
arrives within burst 1's settle window (`u2 < u1 + 200`), bumping the
generation to 2 before attempt 1's re-check.  The full log shows the initial
spawn, one kill of the running process, the second request, and exactly one
new spawn — from the most recent request (generation 2); the stale
generation-1 attempt returns silently (no `spawned 1 _` entry). -/
theorem devServer_stale_restart_suppressed (t1 u1 t2 u2 : Nat)
    (h1 : 200 ≤ t1) (h2 : t1 ≤ u1) (h3 : u1 ≤ t2) (h4 : t2 ≤ u2)
    (h5 : u2 < u1 + 200) :
    (runSup [(t1, u1), (t2, u2)]).log =
      [.spawned 0 0, .restartReq 1 (some 0), .restartReq 2 none, .spawned 2 1] ∧
    (runSup [(t1, u1), (t2, u2)]).live = [1] := by
  have hn1 : ¬ ((u1 + 200 : Nat) ≤ t2) := by omega
  have hn2 : ¬ ((u1 + 200 : Nat) ≤ u2) := by omega
  have stepA : supStep supInit (t1, u1) =
      { gen := 1, slot := none, live := [], pending := [(u1 + 200, 1)], nextPid := 1,
        log := [SupOut.spawned 0 0, SupOut.restartReq 1 (some 0)] } := by
    simp [supStep, runWakes, supInit, runWakesAux, spawnCheck, killPhase, h1]
  have stepB : supStep
      { gen := 1, slot := none, live := [], pending := [(u1 + 200, 1)], nextPid := 1,
        log := [SupOut.spawned 0 0, SupOut.restartReq 1 (some 0)] } (t2, u2) =
      { gen := 2, slot := none, live := [],
        pending := [(u1 + 200, 1), (u2 + 200, 2)], nextPid := 1,
        log := [SupOut.spawned 0 0, SupOut.restartReq 1 (some 0),
                SupOut.restartReq 2 none] } := by
    simp [supStep, runWakes, runWakesAux, spawnCheck, killPhase, hn1, hn2]
  have flushB : flushAll
      { gen := 2, slot := none, live := [],
        pending := [(u1 + 200, 1), (u2 + 200, 2)], nextPid := 1,
        log := [SupOut.spawned 0 0, SupOut.restartReq 1 (some 0),
                SupOut.restartReq 2 none] } =
      { gen := 2, slot := some 1, live := [1], pending := [], nextPid := 2,
        log := [SupOut.spawned 0 0, SupOut.restartReq 1 (some 0),
                SupOut.restartReq 2 none, SupOut.spawned 2 1] } := by
    simp [flushAll, flushAllAux, spawnCheck]
  have key : runSup [(t1, u1), (t2, u2)] =
      { gen := 2, slot := some 1, live := [1], pending := [], nextPid := 2,
        log := [SupOut.spawned 0 0, SupOut.restartReq 1 (some 0),
                SupOut.restartReq 2 none, SupOut.spawned 2 1] } := by
    show flushAll (List.foldl supStep supInit [(t1, u1), (t2, u2)]) = _
    rw [List.foldl_cons, List.foldl_cons, List.foldl_nil, stepA, stepB, flushB]
  rw [key]
  exact ⟨rfl, rfl⟩

/-- Witness for C5 at concrete times: initial spawn settles at 200, burst 1
at (300, 300), burst 2 at (400, 450) — inside burst 1's settle window ending
at 500. -/
theorem devServer_stale_restart_suppressed_witness :
    (runSup [(300, 300), (400, 450)]).log =
      [.spawned 0 0, .restartReq 1 (some 0), .restartReq 2 none, .spawned 2 1] ∧
    (runSup [(300, 300), (400, 450)]).live = [1] :=
  devServer_stale_restart_suppressed 300 300 400 450 (by omega) (by omega)
    (by omega) (by omega) (by omega)

/-! ## Orchestrator theorems -/

/-- C7 counterexample: on a subsequent (incremental) fire closed by an
`addDir` event, the code copies the directory but does not chmod the
destination to `0o444`, while the claim requires every non-unlink event to
be followed by the read-only chmod. -/
theorem autoSync_addDir_no_chmod :
    (autoSyncOnTrigger id true "addDir" "sub").2 = [.copy "sub" "sub"] ∧
    SyncAct.chmod "sub" 0o444 ∉ (autoSyncOnTrigger id true "addDir" "sub").2 := by
  constructor
  · rfl
  · decide

/-- C7 (amended): the first trailing-edge fire performs the full bulk sync;
every subsequent fire performs a single-path action keyed off the
window-closing event: an `unlink`/`unlinkDir` event removes the mapped
destination; any other event copies the single source path to its mapped
destination, followed by a chmod of the destination to read-only `0o444`
exactly when the event is not a directory event (`add`/`change`); an
`addDir` event copies without the chmod.  Moreover, across a run of fires,
only the first performs the bulk sync. -/
theorem autoSync_trigger_characterization (mapDst : String → String)
    (ev fp : String) (inited : Bool) (e : ChangeEvent) (rest : List ChangeEvent) :
    (inited = false → autoSyncOnTrigger mapDst inited ev fp = (true, [.bulkSync])) ∧
    (inited = true → strStartsWith ev "unlink" = true →
      autoSyncOnTrigger mapDst inited ev fp = (true, [.remove (mapDst fp)])) ∧
    (inited = true → strStartsWith ev "unlink" = false → strEndsWith ev "Dir" = false →
      autoSyncOnTrigger mapDst inited ev fp =
        (true, [.copy fp (mapDst fp), .chmod (mapDst fp) 0o444])) ∧
    (inited = true → strStartsWith ev "unlink" = false → strEndsWith ev "Dir" = true →
      autoSyncOnTrigger mapDst inited ev fp = (true, [.copy fp (mapDst fp)])) ∧
    (autoSyncRun mapDst false (e :: rest) =
      ((autoSyncRun mapDst true rest).1,
        SyncAct.bulkSync :: (autoSyncRun mapDst true rest).2)) := by
  refine ⟨?_, ?_, ?_, ?_, ?_⟩
  · intro h; subst h; rfl
  · intro h hu; subst h; simp [autoSyncOnTrigger, hu]
  · intro h hu hd; subst h; simp [autoSyncOnTrigger, hu, hd]
  · intro h hu hd; subst h; simp [autoSyncOnTrigger, hu, hd]
  · simp [autoSyncRun, autoSyncOnTrigger]

/-- Witness for the amended C7: a `change` fire after initialization copies
and chmods; an `unlink` fire removes; a first fire bulk-syncs. -/
theorem autoSync_trigger_characterization_witness :
    autoSyncOnTrigger id true "change" "a.ts" = (true, [.copy "a.ts" "a.ts", .chmod "a.ts" 0o444]) ∧
    autoSyncOnTrigger id true "unlink" "a.ts" = (true, [.remove "a.ts"]) ∧
    autoSyncOnTrigger id false "change" "a.ts" = (true, [.bulkSync]) := by
  have h := autoSync_trigger_characterization id "change" "a.ts" true ⟨"change", "a.ts"⟩ []
  have h2 := autoSync_trigger_characterization id "unlink" "a.ts" true ⟨"change", "a.ts"⟩ []
  have h3 := autoSync_trigger_characterization id "change" "a.ts" false ⟨"change", "a.ts"⟩ []
  exact ⟨h.2.2.1 rfl (by decide) (by decide), h2.2.1 rfl (by decide), h3.1 rfl⟩

/-- C8: per schema-regeneration trigger, a failed regeneration is caught and
logged and nothing else happens in that trigger (no API stubs; the artifact
is written by the collaborator that failed, so none is produced), leaving
the watch running; a successful regeneration with `autoApi` enabled and an
API-stub directory configured generates API stubs from the new schema as a
synchronous follow-up in the same trigger, and otherwise no stub is
generated. -/
theorem autoProto_trigger_characterization (autoApi : Bool) (ptlDir : String)
    (apiDir : Option String) (res : Except String Nat) :
    (∀ msg, res = .error msg →
      autoProtoOnTrigger autoApi ptlDir apiDir res = [.logError msg]) ∧
    (∀ p d, res = .ok p → autoApi = true → apiDir = some d →
      autoProtoOnTrigger autoApi ptlDir apiDir res = [.genApi ptlDir d]) ∧
    (∀ p, res = .ok p → autoApi = false ∨ apiDir = none →
      autoProtoOnTrigger autoApi ptlDir apiDir res = []) := by
  refine ⟨?_, ?_, ?_⟩
  · intro msg h; subst h; rfl
  · intro p d h ha hd; subst h; subst ha; subst hd; rfl
  · intro p h hcase
    subst h
    rcases hcase with ha | hd
    · subst ha; rfl
    · subst hd; simp [autoProtoOnTrigger]

/-- Witness for C8: a failing regeneration logs the message and generates no
stubs; a successful one with `autoApi` and a configured stub dir generates
stubs. -/
theorem autoProto_trigger_characterization_witness :
    autoProtoOnTrigger true "src/shared/protocols" (some "src/api") (.error "syntax error") =
      [.logError "syntax error"] ∧
    autoProtoOnTrigger true "src/shared/protocols" (some "src/api") (.ok 1) =
      [.genApi "src/shared/protocols" "src/api"] :=
  ⟨(autoProto_trigger_characterization true "src/shared/protocols" (some "src/api")
      (.error "syntax error")).1 "syntax error" rfl,
   (autoProto_trigger_characterization true "src/shared/protocols" (some "src/api")
      (.ok 1)).2.1 1 "src/api" rfl rfl rfl⟩

/-- The attempted symlink pairs are always an in-order prefix of the
configured symlink items. -/
lemma runLinks_attempts (lr : String → String → Except String Unit) :
    ∀ l : List SyncItem,
      (runLinks lr l).1 <+: l.map (fun it => (it.from_, it.to_)) := by
  intro l
  induction l with
  | nil => exact List.prefix_refl []
  | cons it rest ih =>
    cases hlr : lr it.from_ it.to_ with
    | ok u =>
      have heq : runLinks lr (it :: rest) =
          ((it.from_, it.to_) :: (runLinks lr rest).1, (runLinks lr rest).2) := by
        simp [runLinks, hlr]
      rw [heq, List.map_cons]
      obtain ⟨t, ht⟩ := ih
      exact ⟨t, by rw [List.cons_append, ht]⟩
    | error msg =>
      have heq : runLinks lr (it :: rest) = ([(it.from_, it.to_)], some msg) := by
        simp [runLinks, hlr]
      rw [heq, List.map_cons]
      refine ⟨rest.map (fun v => (v.from_, v.to_)), ?_⟩
      simp

/-- When no symlink setup failed, every configured symlink was attempted, in
order. -/
lemma runLinks_none (lr : String → String → Except String Unit) :
    ∀ l : List SyncItem, (runLinks lr l).2 = none →
      (runLinks lr l).1 = l.map (fun it => (it.from_, it.to_)) := by
  intro l
  induction l with
  | nil => intro _; rfl
  | cons it rest ih =>
    intro h
    cases hlr : lr it.from_ it.to_ with
    | ok u =>
      have heq : runLinks lr (it :: rest) =
          ((it.from_, it.to_) :: (runLinks lr rest).1, (runLinks lr rest).2) := by
        simp [runLinks, hlr]
      rw [heq] at h ⊢
      rw [List.map_cons]
      show (it.from_, it.to_) :: (runLinks lr rest).1 = _
      rw [ih h]
    | error msg =>
      have heq : runLinks lr (it :: rest) = ([(it.from_, it.to_)], some msg) := by
        simp [runLinks, hlr]
      rw [heq] at h
      exact absurd h (by simp)

/-- C9: the one-time symlink setups run sequentially, in configuration
order, before any watch is registered and before the dev server starts: the
attempted links always form an in-order prefix of the configured symlink
items; if any setup fails (`err` is set), no watch is registered and the
server is not started; if none fails, every symlink was attempted in order
and all configured watches plus the dev server start. -/
theorem cmdDev_links_before_watches (lr : String → String → Except String Unit)
    (conf : TsrpcConf) :
    (cmdDevModel lr conf).linkAttempts <+:
      (symlinkItems conf).map (fun it => (it.from_, it.to_)) ∧
    ((cmdDevModel lr conf).err.isSome = true →
      (cmdDevModel lr conf).watchIds = [] ∧
      (cmdDevModel lr conf).devServerStarted = false) ∧
    ((cmdDevModel lr conf).err = none →
      (cmdDevModel lr conf).linkAttempts =
        (symlinkItems conf).map (fun it => (it.from_, it.to_)) ∧
      (cmdDevModel lr conf).watchIds = watchIdsOf conf ∧
      (cmdDevModel lr conf).devServerStarted = true) := by
  cases hr : (runLinks lr (symlinkItems conf)).2 with
  | some msg =>
    have hsess : cmdDevModel lr conf =
        { linkAttempts := (runLinks lr (symlinkItems conf)).1, watchIds := [],
          devServerStarted := false, err := some msg } := by
      simp [cmdDevModel, hr]
    rw [hsess]
    exact ⟨runLinks_attempts lr (symlinkItems conf), fun _ => ⟨rfl, rfl⟩,
      fun hcon => absurd hcon (by simp)⟩
  | none =>
    have hsess : cmdDevModel lr conf =
        { linkAttempts := (runLinks lr (symlinkItems conf)).1,
          watchIds := watchIdsOf conf, devServerStarted := true, err := none } := by
      simp [cmdDevModel, hr]
    rw [hsess]
    exact ⟨runLinks_attempts lr (symlinkItems conf), fun hcon => absurd hcon (by simp),
      fun _ => ⟨runLinks_none lr (symlinkItems conf) hr, rfl, rfl⟩⟩

/-- Witness for C9: with a failing symlink collaborator and a config holding
one symlink and one copy entry plus a proto item, the failing session
registers no watch and does not start the server; with a succeeding
collaborator, all configured watches are registered. -/
theorem cmdDev_links_before_watches_witness :
    (cmdDevModel (fun _ _ => .error "EEXIST")
        ⟨none, some [⟨"p", "o", some "a"⟩],
         some [⟨"symlink", "s1", "d1"⟩, ⟨"copy", "s2", "d2"⟩]⟩).watchIds = [] ∧
    (cmdDevModel (fun _ _ => .error "EEXIST")
        ⟨none, some [⟨"p", "o", some "a"⟩],
         some [⟨"symlink", "s1", "d1"⟩, ⟨"copy", "s2", "d2"⟩]⟩).devServerStarted = false ∧
    (cmdDevModel (fun _ _ => .ok ())
        ⟨none, some [⟨"p", "o", some "a"⟩],
         some [⟨"symlink", "s1", "d1"⟩, ⟨"copy", "s2", "d2"⟩]⟩).watchIds =
      watchIdsOf ⟨none, some [⟨"p", "o", some "a"⟩],
         some [⟨"symlink", "s1", "d1"⟩, ⟨"copy", "s2", "d2"⟩]⟩ := by
  have h1 := (cmdDev_links_before_watches (fun _ _ => .error "EEXIST")
    ⟨none, some [⟨"p", "o", some "a"⟩],
     some [⟨"symlink", "s1", "d1"⟩, ⟨"copy", "s2", "d2"⟩]⟩).2.1 rfl
  have h2 := (cmdDev_links_before_watches (fun _ _ => .ok ())
    ⟨none, some [⟨"p", "o", some "a"⟩],
     some [⟨"symlink", "s1", "d1"⟩, ⟨"copy", "s2", "d2"⟩]⟩).2.2 rfl
  exact ⟨h1.1, h1.2, h2.2.1⟩
